import Mathlib

/-!
Verification development for the perplexity-mcp-server repository.

The repository contains near-duplicate MCP proxy variants.  The verified
core is the SSE stream reassembly / accumulation / formatting logic:

* `processLineS` / `feedChunkS`  — the per-line and per-chunk processing of
  `processStreamingResponse` in `src/server.ts` and `src/stdio.ts`
  (the two functions are textually identical in that region);
* `processLineH` / `feedChunkH` / `synthesize` — the processing of
  `handleStreamResponse` in the unnamed stdio variant (`src/unnamed/part_000`);
* `formatResponse` — the citation/image formatting tail of
  `processStreamingResponse`.

Strings are modelled as `List Char` (`Str`).  JavaScript's `JSON.parse`
is an external builtin; it is modelled by the executable parser
`parseJson` below, which follows the JSON grammar (objects, arrays,
strings with escapes, decimal numerals with fraction and exponent,
literals), keeps the last binding for duplicated object keys as
`JSON.parse` does, and rejects trailing garbage.  JavaScript numbers are
modelled exactly as decimal pairs (mantissa, base-10 exponent); only
their truthiness (zero / non-zero) is ever observed by the program.
-/

/-- Program strings, modelled as lists of characters. -/
abbrev Str := List Char

/-- The whitespace test used both by JavaScript `trim` (on the ASCII
whitespace actually occurring in SSE streams) and the JSON grammar. -/
def isWsChar (c : Char) : Bool := c = ' ' || c = '\t' || c = '\n' || c = '\r'

/-- Left trim, as in JavaScript `String.prototype.trim`. -/
def trimL (s : Str) : Str := s.dropWhile isWsChar

/-- Right trim, as in JavaScript `String.prototype.trim`. -/
def trimR (s : Str) : Str := (s.reverse.dropWhile isWsChar).reverse

/-- JavaScript `String.prototype.trim`. -/
def trimStr (s : Str) : Str := trimR (trimL s)

/-- `begWith pre s` models JavaScript `s.startsWith(pre)`. -/
def begWith : Str → Str → Bool
  | [], _ => true
  | _ :: _, [] => false
  | p :: ps, c :: cs => p = c && begWith ps cs

/-- JavaScript `String.prototype.split("\n")`: the list of newline-free
fragments; always non-empty. -/
def splitNl : Str → List Str
  | [] => [[]]
  | c :: cs =>
    if c = '\n' then [] :: splitNl cs
    else
      match splitNl cs with
      | [] => [[c]]
      | l :: ls => (c :: l) :: ls

/-- `lines.pop() || ""` : the last element of a fragment list, with `""`
for the empty list. -/
def lastD : List Str → Str
  | [] => []
  | [x] => x
  | _ :: x :: xs => lastD (x :: xs)

/-- Concatenation of a list of strings. -/
def joinList : List Str → Str
  | [] => []
  | x :: xs => x ++ joinList xs

/-- Pair every element with its position, starting at `i`
(the `(element, index)` enumeration of `Array.prototype.forEach`). -/
def enumFrom {α : Type} : Nat → List α → List (Nat × α)
  | _, [] => []
  | i, a :: as => (i, a) :: enumFrom (i + 1) as

/-- The last `some` of a list of options, if any. -/
def lastSome {α : Type} : List (Option α) → Option α
  | [] => none
  | o :: os =>
    match lastSome os with
    | some v => some v
    | none => o

/-- JSON values as produced by `JSON.parse`.  Numbers are exact decimal
pairs `num m e` denoting `m * 10 ^ e`. -/
inductive Json where
  | null : Json
  | bool : Bool → Json
  | num : Int → Int → Json
  | str : Str → Json
  | arr : List Json → Json
  | obj : List (Str × Json) → Json

/-- JavaScript truthiness of a `JSON.parse` result: `null`, `false`,
`0` and `""` are falsy; every array and object is truthy. -/
def Json.truthy : Json → Bool
  | .null => false
  | .bool b => b
  | .num m _ => m != 0
  | .str s => !s.isEmpty
  | .arr _ => true
  | .obj _ => true

/-- Object field lookup; the *last* binding wins, matching the
behaviour of `JSON.parse` on duplicated keys. -/
def lookupField (fs : List (Str × Json)) (k : Str) : Option Json :=
  fs.foldl (fun acc p => if p.1 = k then some p.2 else acc) none

/-- JavaScript property access `v.k` on a parsed JSON value, for the
identifier-named properties this program reads: defined on objects,
`undefined` (`none`) on every other value. -/
def Json.prop : Json → Str → Option Json
  | .obj fs, k => lookupField fs k
  | _, _ => none

/-- JavaScript element access `v[0]` as it behaves on parsed JSON
values: first element of an array, property `"0"` of an object, the
one-character string for a non-empty string, `undefined` otherwise. -/
def jsIndex0 : Json → Option Json
  | .arr [] => none
  | .arr (x :: _) => some x
  | .obj fs => lookupField fs ['0']
  | .str [] => none
  | .str (c :: _) => some (.str [c])
  | _ => none

/-- One optional-chaining step `v?.…`: `undefined` when the scrutinee is
`undefined` (`none`) or `null`, otherwise the access result. -/
def chain1 (v : Option Json) (f : Json → Option Json) : Option Json :=
  match v with
  | none => none
  | some .null => none
  | some j => f j

/-- JavaScript `a || d` on a possibly-undefined value `a`. -/
def jsOrD (o : Option Json) (d : Json) : Json :=
  match o with
  | some v => if v.truthy then v else d
  | none => d

/-- Truthiness of a possibly-undefined value. -/
def optTruthyJ : Option Json → Bool
  | none => false
  | some v => v.truthy

/-- Decimal digits of a natural number. -/
def natStr (n : Nat) : Str := Nat.toDigits 10 n

/-- Decimal rendering of an integer. -/
def intStr (i : Int) : Str := if i < 0 then '-' :: natStr i.natAbs else natStr i.toNat

/-- Rendering of a modelled JSON number (exact on integers, which are
the only numbers this program ever stringifies). -/
def numRender (m e : Int) : Str :=
  if e = 0 then intStr m else intStr m ++ 'e' :: intStr e

def nullWord : Str := (r"null").toList
def trueWord : Str := (r"true").toList
def falseWord : Str := (r"false").toList
def objectWord : Str := (r"[object Object]").toList

mutual

/-- JavaScript string coercion of a parsed JSON value (as used by
template literals and `+=`).  Arrays render as their comma-joined
elements with `null` rendering empty, as in `Array.prototype.toString`. -/
def jsToStr : Json → Str
  | .null => nullWord
  | .bool true => trueWord
  | .bool false => falseWord
  | .num m e => numRender m e
  | .str s => s
  | .obj _ => objectWord
  | .arr xs => jsArrBody xs

/-- Body of `Array.prototype.toString` on parsed JSON elements. -/
def jsArrBody : List Json → Str
  | [] => []
  | x :: xs =>
    (match x with
     | .null => []
     | j => jsToStr j) ++
    (match xs with
     | [] => []
     | _ => ',' :: jsArrBody xs)
end

/-- Digit test. -/
def isDigitCh (c : Char) : Bool :=
  ('0' ≤ c) && (c ≤ '9')

/-- Numeric value of a decimal digit. -/
def digVal (c : Char) : Nat :=
  Char.toNat c - Char.toNat '0'

/-- Longest digit run at the front of a string. -/
def takeDigits : Str → (List Char × Str)
  | [] => ([], [])
  | c :: cs =>
    if isDigitCh c then
      match takeDigits cs with
      | (ds, rest) => (c :: ds, rest)
    else ([], c :: cs)

def digitsVal (ds : List Char) : Nat := ds.foldl (fun a c => a * 10 + digVal c) 0

/-- Numeric value of a hexadecimal digit, if any. -/
def hexDigVal (c : Char) : Option Nat :=
  if isDigitCh c then
    some (digVal c)
  else if (('a' ≤ c) && (c ≤ 'f') : Bool) then
    some (10 + (Char.toNat c - Char.toNat 'a'))
  else if (('A' ≤ c) && (c ≤ 'F') : Bool) then
    some (10 + (Char.toNat c - Char.toNat 'A'))
  else none

/-- Single-character JSON string escapes. -/
def escSimple (c : Char) : Option Char :=
  if c = '"' then some '"'
  else if c = '\\' then some '\\'
  else if c = '/' then some '/'
  else if c = 'b' then some '\x08'
  else if c = 'f' then some '\x0c'
  else if c = 'n' then some '\n'
  else if c = 'r' then some '\r'
  else if c = 't' then some '\t'
  else none

/-- JSON string-body parser, entered after the opening quote; returns
the decoded content and the remainder after the closing quote. -/
def parseStrBody : Str → Option (Str × Str)
  | [] => none
  | c :: rest =>
    if c = '"' then some ([], rest)
    else if c = '\\' then
      match rest with
      | [] => none
      | e :: r2 =>
        if e = 'u' then
          match r2 with
          | h1 :: h2 :: h3 :: h4 :: r3 =>
            match hexDigVal h1, hexDigVal h2, hexDigVal h3, hexDigVal h4 with
            | some a, some b, some c4, some d =>
              match parseStrBody r3 with
              | some (cs, rem) => some (Char.ofNat (((a * 16 + b) * 16 + c4) * 16 + d) :: cs, rem)
              | none => none
            | _, _, _, _ => none
          | _ => none
        else
          match escSimple e with
          | some ec =>
            match parseStrBody r2 with
            | some (cs, rem) => some (ec :: cs, rem)
            | none => none
          | none => none
    else if c.toNat < 32 then none
    else
      match parseStrBody rest with
      | some (cs, rem) => some (c :: cs, rem)
      | none => none

/-- JSON whitespace skipping. -/
def skipWs (s : Str) : Str := s.dropWhile isWsChar

/-- Strip an expected literal from the front of a string. -/
def dropPre : Str → Str → Option Str
  | [], s => some s
  | _ :: _, [] => none
  | p :: ps, c :: cs => if p = c then dropPre ps cs else none

/-- Digit part of a JSON exponent. -/
def parseExpDigits (neg : Bool) (s : Str) : Option (Int × Str) :=
  match takeDigits s with
  | ([], _) => none
  | (ds, rest) => some (if neg then -(digitsVal ds : Int) else (digitsVal ds : Int), rest)

/-- Signed part of a JSON exponent. -/
def parseExpSign : Str → Option (Int × Str)
  | '+' :: r => parseExpDigits false r
  | '-' :: r => parseExpDigits true r
  | r => parseExpDigits false r

/-- Optional exponent of a JSON number. -/
def parseExpPart : Str → Option (Int × Str)
  | 'e' :: r => parseExpSign r
  | 'E' :: r => parseExpSign r
  | s => some (0, s)

/-- Optional fraction of a JSON number. -/
def parseFrac : Str → Option (List Char × Str)
  | '.' :: r =>
    (match takeDigits r with
     | ([], _) => none
     | (ds, rest) => some (ds, rest))
  | s => some (([] : List Char), s)

/-- JSON number parser (sign, integer part with the leading-zero rule,
fraction, exponent), producing an exact decimal value. -/
def parseNum (s : Str) : Option (Json × Str) :=
  let signed : Bool × Str :=
    match s with
    | '-' :: rest => (true, rest)
    | _ => (false, s)
  match takeDigits signed.2 with
  | ([], _) => none
  | (ids, s2) =>
    match ids with
    | '0' :: _ :: _ => none
    | _ =>
      match parseFrac s2 with
      | none => none
      | some (fds, s3) =>
        match parseExpPart s3 with
        | none => none
        | some (e, s4) =>
          let mnat := digitsVal (ids ++ fds)
          let m : Int := if signed.1 then -(mnat : Int) else (mnat : Int)
          some (Json.num m (e - fds.length), s4)

def rueWord : Str := (r"rue").toList
def alseWord : Str := (r"alse").toList
def ullWord : Str := (r"ull").toList

mutual

/-- Fuel-based JSON value parser (the model of `JSON.parse`'s grammar). -/
def parseVal : Nat → Str → Option (Json × Str)
  | 0, _ => none
  | fuel + 1, s =>
    match skipWs s with
    | [] => none
    | c :: rest =>
      if c = '"' then
        match parseStrBody rest with
        | some (cs, rem) => some (Json.str cs, rem)
        | none => none
      else if c = 't' then
        match dropPre rueWord rest with
        | some rem => some (Json.bool true, rem)
        | none => none
      else if c = 'f' then
        match dropPre alseWord rest with
        | some rem => some (Json.bool false, rem)
        | none => none
      else if c = 'n' then
        match dropPre ullWord rest with
        | some rem => some (Json.null, rem)
        | none => none
      else if c = '[' then
        match skipWs rest with
        | ']' :: rem => some (Json.arr [], rem)
        | _ =>
          match parseArrItems fuel rest with
          | some (xs, rem) => some (Json.arr xs, rem)
          | none => none
      else if c = '{' then
        match skipWs rest with
        | '}' :: rem => some (Json.obj [], rem)
        | _ =>
          match parseObjItems fuel rest with
          | some (fs, rem) => some (Json.obj fs, rem)
          | none => none
      else parseNum (c :: rest)

/-- Comma-separated array elements up to the closing bracket. -/
def parseArrItems : Nat → Str → Option (List Json × Str)
  | 0, _ => none
  | fuel + 1, s =>
    match parseVal fuel s with
    | none => none
    | some (v, rem) =>
      match skipWs rem with
      | ',' :: r2 =>
        (match parseArrItems fuel r2 with
         | some (xs, r3) => some (v :: xs, r3)
         | none => none)
      | ']' :: r2 => some ([v], r2)
      | _ => none

/-- Comma-separated object members up to the closing brace. -/
def parseObjItems : Nat → Str → Option (List (Str × Json) × Str)
  | 0, _ => none
  | fuel + 1, s =>
    match skipWs s with
    | '"' :: r1 =>
      (match parseStrBody r1 with
       | none => none
       | some (k, r2) =>
         match skipWs r2 with
         | ':' :: r3 =>
           (match parseVal fuel r3 with
            | none => none
            | some (v, r4) =>
              match skipWs r4 with
              | ',' :: r5 =>
                (match parseObjItems fuel r5 with
                 | some (fs, r6) => some ((k, v) :: fs, r6)
                 | none => none)
              | '}' :: r5 => some ([(k, v)], r5)
              | _ => none)
         | _ => none)
    | _ => none

end

/-- The model of `JSON.parse`: parse one value, reject trailing
non-whitespace, throw (`none`) otherwise. -/
def parseJson (s : Str) : Option Json :=
  match parseVal (s.length + 1) s with
  | some (v, rem) => if skipWs rem = [] then some v else none
  | none => none

def dataPre : Str := (r"data: ").toList
def dataColon : Str := (r"data:").toList
def doneLine : Str := (r"data: [DONE]").toList
def doneWord : Str := (r"[DONE]").toList
def keyChoices : Str := (r"choices").toList
def keyDelta : Str := (r"delta").toList
def keyContent : Str := (r"content").toList
def keyCitations : Str := (r"citations").toList
def keyImages : Str := (r"images").toList
def keySearchResults : Str := (r"search_results").toList
def keyUrl : Str := (r"url").toList
def keyLink : Str := (r"link").toList
def keyTitle : Str := (r"title").toList
def keyName : Str := (r"name").toList
def keyText : Str := (r"text").toList
def keyImageUrl : Str := (r"image_url").toList
def keySrc : Str := (r"src").toList
def keyId : Str := (r"id").toList
def keyModel : Str := (r"model").toList
def keyCreated : Str := (r"created").toList
def keyUsage : Str := (r"usage").toList
def keyFinishReason : Str := (r"finish_reason").toList
def keyPromptTokens : Str := (r"prompt_tokens").toList
def keyCompletionTokens : Str := (r"completion_tokens").toList
def keyTotalTokens : Str := (r"total_tokens").toList
def wordUnknown : Str := (r"unknown").toList
def wordStop : Str := (r"stop").toList
def wordSonarPro : Str := (r"sonar-pro").toList
def wordChatCompletion : Str := (r"chat.completion").toList
def hashWord : Str := (r"#").toList

/-- `"\n\n**Sources:**\n"` -/
def srcHeader : Str := '\n' :: '\n' :: (r"**Sources:**").toList ++ ['\n']

/-- `"\n\n**Related Images:**\n"` -/
def imgHeader : Str := '\n' :: '\n' :: (r"**Related Images:**").toList ++ ['\n']

/-- `parsed.choices?.[0]?.delta?.content` (the first property access is
plain; its scrutinee is known non-null at every use site). -/
def deltaContentOf (p : Json) : Option Json :=
  chain1 (chain1 (chain1 (p.prop keyChoices) jsIndex0)
      (fun j => j.prop keyDelta))
    (fun j => j.prop keyContent)

/-- The mutable locals of `processStreamingResponse`
(`src/server.ts` lines 185–188, identical in `src/stdio.ts`):
`result`, `citations`, `images`. -/
structure ProcState where
  result : Str
  citations : List Json
  images : List Json

/-- The statements executed on a successfully parsed payload
(`src/server.ts` lines 213–226): a property access on a parsed `null`
throws (caught by the surrounding `try`, leaving the state unchanged);
otherwise truthy delta content is appended and array-valued
`citations` / `images` replace the stored arrays. -/
def applyPayloadS (st : ProcState) (parsed : Json) : ProcState :=
  match parsed with
  | .null => st
  | _ =>
    let st1 :=
      match deltaContentOf parsed with
      | some c => if c.truthy then { st with result := st.result ++ jsToStr c } else st
      | none => st
    let st2 :=
      match parsed.prop keyCitations with
      | some (Json.arr xs) => { st1 with citations := xs }
      | _ => st1
    match parsed.prop keyImages with
    | some (Json.arr xs) => { st2 with images := xs }
    | _ => st2

/-- The body of the `for (const line of lines)` loop of
`processStreamingResponse` (`src/server.ts` lines 200–231): trim the
line, skip blank lines and the exact `"data: [DONE]"` sentinel, strip
the 6-character `"data: "` prefix and trim, `JSON.parse` the payload,
then apply it. -/
def processLineS (st : ProcState) (line : Str) : ProcState :=
  let t := trimStr line
  if t = [] ∨ t = doneLine then st
  else if begWith dataPre t then
    match parseJson (trimStr (t.drop 6)) with
    | none => st
    | some parsed => applyPayloadS st parsed
  else st

def processLinesS (st : ProcState) (ls : List Str) : ProcState := ls.foldl processLineS st

/-- The carry-over buffer together with the accumulating state. -/
structure BufState where
  proc : ProcState
  buffer : Str

def initProc : ProcState := ⟨[], [], []⟩

def initBuf : BufState := ⟨initProc, []⟩

/-- One iteration of the chunk loop of `processStreamingResponse`
(`src/server.ts` lines 193–233): append the chunk to the buffer, split
on `"\n"`, keep the final (possibly incomplete) fragment as the new
buffer, process the complete lines. -/
def feedChunkS (st : BufState) (chunk : Str) : BufState :=
  let lines := splitNl (st.buffer ++ chunk)
  { proc := processLinesS st.proc lines.dropLast, buffer := lastD lines }

/-- The whole chunk loop of `processStreamingResponse` over a list of
received chunks (the trailing buffer is never flushed, as in the
source). -/
def runChunksS (chunks : List Str) : BufState := chunks.foldl feedChunkS initBuf

/-- The citation branch of the `citations.forEach` body
(`src/server.ts` lines 244–255): strings render plainly, objects (and
arrays, for which `typeof` is also `"object"`) render as Markdown links
with `||`-fallback title and url; anything else emits nothing. -/
def renderCitation (idx : Nat) (citation : Json) : Str :=
  match citation with
  | .str s => natStr (idx + 1) ++ '.' :: ' ' :: s ++ ['\n']
  | .arr _ | .obj _ =>
    let url := jsOrD (citation.prop keyUrl) (jsOrD (citation.prop keyLink) (.str hashWord))
    let title := jsOrD (citation.prop keyTitle)
      (jsOrD (citation.prop keyName) (jsOrD (citation.prop keyText) url))
    natStr (idx + 1) ++ '.' :: ' ' :: '[' :: jsToStr title ++ ']' :: '(' :: jsToStr url ++ [')', '\n']
  | _ => []

/-- `image.image_url || image.url || image.src || image.link` followed
by the `if (url)` truthiness gate (`src/server.ts` lines 267–269):
`none` exactly when no resolvable (truthy) URL field exists. -/
def resolveImgUrl (image : Json) : Option Json :=
  let u := jsOrD (image.prop keyImageUrl)
    (jsOrD (image.prop keyUrl) (jsOrD (image.prop keySrc) (jsOrD (image.prop keyLink) Json.null)))
  if u.truthy then some u else none

/-- The image branch of the `images.forEach` body
(`src/server.ts` lines 260–273). -/
def renderImage (idx : Nat) (image : Json) : Str :=
  match image with
  | .str s =>
    natStr (idx + 1) ++ '.' :: ' ' :: '!' :: '[' :: (r"Image ").toList ++ natStr (idx + 1)
      ++ ']' :: '(' :: s ++ [')', '\n']
  | .arr _ | .obj _ =>
    (match resolveImgUrl image with
     | some url =>
       let title := jsOrD (image.prop keyTitle) (.str ((r"Image ").toList ++ natStr (idx + 1)))
       natStr (idx + 1) ++ '.' :: ' ' :: '[' :: jsToStr title ++ ']' :: '(' :: jsToStr url ++ [')', '\n']
     | none => [])
  | _ => []

/-- `list.forEach((x, index) => { acc += f(index, x) })`. -/
def foldRender (f : Nat → Json → Str) (init : Str) (xs : List Json) : Str :=
  (enumFrom 0 xs).foldl (fun acc p => acc ++ f p.1 p.2) init

/-- The formatting tail of `processStreamingResponse`
(`src/server.ts` lines 240–276): the accumulated text, then a Sources
section when citations are non-empty, then a Related Images section
when images are non-empty. -/
def formatResponse (result : Str) (citations images : List Json) : Str :=
  let f1 := if citations.length > 0 then foldRender renderCitation (result ++ srcHeader) citations
    else result
  if images.length > 0 then foldRender renderImage (f1 ++ imgHeader) images else f1

/-- The mutable locals of `handleStreamResponse`
(`src/unnamed/part_000` lines 172–174): `accumulatedContent`,
`lastChunk`, `searchResults`.  `none` models JavaScript `null` for the
latter two. -/
structure HState where
  accumulatedContent : Str
  lastChunk : Option Json
  searchResults : Option Json

def initH : HState := ⟨[], none, none⟩

/-- The statements executed on a successfully parsed payload in
`handleStreamResponse` (`src/unnamed/part_000` lines 190–201):
`lastChunk` is assigned first; the following property access throws on
a parsed `null` (caught, keeping that assignment); otherwise truthy
delta content is appended and a truthy `search_results` value replaces
the stored one. -/
def applyPayloadH (st : HState) (parsed : Json) : HState :=
  let st1 := { st with lastChunk := some parsed }
  match parsed with
  | .null => st1
  | _ =>
    let st2 :=
      match deltaContentOf parsed with
      | some c =>
        if c.truthy then { st1 with accumulatedContent := st1.accumulatedContent ++ jsToStr c }
        else st1
      | none => st1
    match parsed.prop keySearchResults with
    | some v => if v.truthy then { st2 with searchResults := some v } else st2
    | none => st2

/-- The body of the `for (const line of lines)` loop of
`handleStreamResponse` (`src/unnamed/part_000` lines 184–206): no
trimming; `"data: "`-prefixed lines have the prefix stripped, the exact
payload `"[DONE]"` is skipped, the payload is `JSON.parse`d, then
applied. -/
def processLineH (st : HState) (line : Str) : HState :=
  if begWith dataPre line then
    let data := line.drop 6
    if data = doneWord then st
    else
      match parseJson data with
      | none => st
      | some parsed => applyPayloadH st parsed
  else st

def processLinesH (st : HState) (ls : List Str) : HState := ls.foldl processLineH st

/-- One iteration of the read loop of `handleStreamResponse`
(`src/unnamed/part_000` lines 177–207): each chunk is split on `"\n"`
independently — there is no carry-over buffer, every fragment of the
chunk (including a trailing incomplete one) is processed as a line. -/
def feedChunkH (st : HState) (chunk : Str) : HState := processLinesH st (splitNl chunk)

/-- The whole read loop of `handleStreamResponse` over a list of
received chunks. -/
def runChunksH (chunks : List Str) : HState := chunks.foldl feedChunkH initH

def runLinesH (ls : List Str) : HState := processLinesH initH ls

/-- The synthesized non-streaming-shaped response of
`handleStreamResponse` (`src/unnamed/part_000` lines 212–234). -/
structure SynthResp where
  rid : Json
  rmodel : Json
  robject : Str
  rcreated : Json
  rfinish : Json
  rcontent : Str
  rusage : Json
  rsearch : Option Json

/-- `{ prompt_tokens: 0, completion_tokens: 0, total_tokens: 0 }` -/
def zeroUsage : Json :=
  Json.obj [(keyPromptTokens, Json.num 0 0), (keyCompletionTokens, Json.num 0 0),
    (keyTotalTokens, Json.num 0 0)]

/-- The response object constructed at the end of
`handleStreamResponse`; `now` models `Date.now()`. -/
def synthesize (st : HState) (now : Int) : SynthResp :=
  { rid := jsOrD (chain1 st.lastChunk (fun j => j.prop keyId)) (.str wordUnknown)
  , rmodel := jsOrD (chain1 st.lastChunk (fun j => j.prop keyModel)) (.str wordSonarPro)
  , robject := wordChatCompletion
  , rcreated := jsOrD (chain1 st.lastChunk (fun j => j.prop keyCreated)) (.num now 0)
  , rfinish := jsOrD
      (chain1 (chain1 (chain1 st.lastChunk (fun j => j.prop keyChoices)) jsIndex0)
        (fun j => j.prop keyFinishReason))
      (.str wordStop)
  , rcontent := st.accumulatedContent
  , rusage := jsOrD (chain1 st.lastChunk (fun j => j.prop keyUsage)) zeroUsage
  , rsearch := st.searchResults }

/-- Outcome of the API-key check inside a tool handler. -/
inductive KeyOutcome where
  | threw : Str → KeyOutcome
  | proceeds : Str → KeyOutcome

/-- Outcome of module-load-time startup code. -/
inductive StartupOutcome where
  | exitsWith : Nat → StartupOutcome
  | continues : StartupOutcome

/-- JavaScript truthiness of a `string | undefined | null` value
(`undefined`, `null` and `""` are falsy). -/
def optTruthyS : Option Str → Bool
  | none => false
  | some s => !s.isEmpty

def serverKeyMsg : Str :=
  (r"PERPLEXITY_API_KEY is required. Provide it via Authorization header (Bearer token) or PERPLEXITY_API_KEY environment variable.").toList

def stdioKeyMsg : Str := (r"PERPLEXITY_API_KEY environment variable is required").toList

/-- Key resolution of the `server.ts` tool handler (lines 95–103):
start from the environment variable, overridden by a truthy
per-request `currentApiKey`. -/
def serverResolvedKey (envKey currentApiKey : Option Str) : Option Str :=
  if optTruthyS currentApiKey then currentApiKey else envKey

/-- The missing-key check of the `server.ts` tool handler
(lines 105–111): throw an explanatory error when the resolved key is
falsy, otherwise continue with the key. -/
def serverKeyCheck (envKey currentApiKey : Option Str) : KeyOutcome :=
  let k := serverResolvedKey envKey currentApiKey
  if optTruthyS k then .proceeds (k.getD []) else .threw serverKeyMsg

/-- The missing-key check of the `stdio.ts` tool handler
(lines 91–97). -/
def stdioKeyCheck (envKey : Option Str) : KeyOutcome :=
  if optTruthyS envKey then .proceeds (envKey.getD []) else .threw stdioKeyMsg

/-- The module-load key check of `src/unnamed/part_000` (lines 18–24):
a falsy `PERPLEXITY_API_KEY` logs and calls `process.exit(1)`. -/
def part000Startup (envKey : Option Str) : StartupOutcome :=
  if optTruthyS envKey then .continues else .exitsWith 1

/-- The recognised data payload of a line for the buffered processor
(`some` exactly when the line reaches `JSON.parse`). -/
def dataOfS (line : Str) : Option Str :=
  let t := trimStr line
  if t = [] ∨ t = doneLine then none
  else if begWith dataPre t then some (trimStr (t.drop 6)) else none

/-- The text a non-null payload appends to the accumulated answer
(shared by both variants). -/
def payloadDeltaStr (parsed : Json) : Str :=
  match parsed with
  | .null => []
  | _ =>
    match deltaContentOf parsed with
    | some c => if c.truthy then jsToStr c else []
    | none => []

/-- The citations replacement a payload carries, if any. -/
def payloadCit (parsed : Json) : Option (List Json) :=
  match parsed with
  | .null => none
  | _ =>
    match parsed.prop keyCitations with
    | some (Json.arr xs) => some xs
    | _ => none

/-- The `search_results` replacement a payload carries, if any. -/
def payloadSearch (parsed : Json) : Option Json :=
  match parsed with
  | .null => none
  | _ =>
    match parsed.prop keySearchResults with
    | some v => if v.truthy then some v else none
    | none => none

/-- The text appended to `result` by one line of the buffered
processor (a function of the line alone). -/
def contribS (line : Str) : Str :=
  match dataOfS line with
  | none => []
  | some d =>
    match parseJson d with
    | none => []
    | some parsed => payloadDeltaStr parsed

/-- The citations replacement carried by one line of the buffered
processor, if any. -/
def citContribS (line : Str) : Option (List Json) :=
  match dataOfS line with
  | none => none
  | some d =>
    match parseJson d with
    | none => none
    | some parsed => payloadCit parsed

/-- The recognised data payload of a line for `handleStreamResponse`. -/
def dataOfH (line : Str) : Option Str :=
  if begWith dataPre line then
    let d := line.drop 6
    if d = doneWord then none else some d
  else none

/-- The successfully parsed payload of a line for
`handleStreamResponse` (also assigned to `lastChunk` when it is
`null`). -/
def parsedOfH (line : Str) : Option Json :=
  match dataOfH line with
  | none => none
  | some d => parseJson d

/-- The text appended to `accumulatedContent` by one line of
`handleStreamResponse`. -/
def contribH (line : Str) : Str :=
  match parsedOfH line with
  | none => []
  | some parsed => payloadDeltaStr parsed

/-- The `search_results` replacement carried by one line of
`handleStreamResponse`, if any. -/
def srContribH (line : Str) : Option Json :=
  match parsedOfH line with
  | none => none
  | some parsed => payloadSearch parsed

/-- Modelled from the spec's words for claim C5: ordered fallback
resolution — the first truthy property among `keys`. -/
def firstTruthyProp (c : Json) : List Str → Option Json
  | [] => none
  | k :: ks =>
    match c.prop k with
    | some v => if v.truthy then some v else firstTruthyProp c ks
    | none => firstTruthyProp c ks

/-- Modelled from the spec's words for claim C5: one 1-indexed citation
line — a bare string renders plainly; otherwise a Markdown link whose
title resolves from `title`, then `name`, then `text`, falling back to
the url, and whose url resolves from `url` then `link`, defaulting to
`"#"`. -/
def specCitationLine (idx : Nat) (citation : Json) : Str :=
  match citation with
  | .str s => natStr (idx + 1) ++ '.' :: ' ' :: s ++ ['\n']
  | _ =>
    let url := (firstTruthyProp citation [keyUrl, keyLink]).getD (.str hashWord)
    let title := (firstTruthyProp citation [keyTitle, keyName, keyText]).getD url
    natStr (idx + 1) ++ '.' :: ' ' :: '[' :: jsToStr title ++ ']' :: '(' :: jsToStr url ++ [')', '\n']

/-- The data-model shape of a citation: a bare string or an object. -/
def citShape : Json → Bool
  | .str _ => true
  | .obj _ => true
  | _ => false

/-- The well-formed SSE byte sequence used to refute claim C1 for the
bufferless variant: one delta event carrying `"Hi"`. -/
def c1whole : Str :=
  ("data: \x7b\"choices\":[\x7b\"delta\":\x7b\"content\":\"Hi\"\x7d\x7d]\x7d\n\n").toList

def c1a : Str := c1whole.take 10

def c1b : Str := c1whole.drop 10

/-- A `[DONE]` sentinel followed by a further delta event in the same
buffer (claim C2). -/
def c2chunk : Str :=
  ("data: [DONE]\ndata: \x7b\"choices\":[\x7b\"delta\":\x7b\"content\":\"X\"\x7d\x7d]\x7d\n").toList

/-- The three delta events of claim C3 followed by the sentinel. -/
def c3chunk : Str :=
  ("data: \x7b\"choices\":[\x7b\"delta\":\x7b\"content\":\"Hel\"\x7d\x7d]\x7d\ndata: \x7b\"choices\":[\x7b\"delta\":\x7b\"content\":\"lo, \"\x7d\x7d]\x7d\ndata: \x7b\"choices\":[\x7b\"delta\":\x7b\"content\":\" world!\"\x7d\x7d]\x7d\ndata: [DONE]\n").toList

def c3expected : Str := ("Hello,  world!").toList

def c3claimed : Str := ("Hello, world!").toList

def c4good1 : Str := ("data: \x7b\"choices\":[\x7b\"delta\":\x7b\"content\":\"A\"\x7d\x7d]\x7d").toList

def c4bad : Str := ("data: \x7b\"choices\":nope\x7d").toList

def c4good2 : Str := ("data: \x7b\"choices\":[\x7b\"delta\":\x7b\"content\":\"B\"\x7d\x7d]\x7d").toList

def c5citA : Json := Json.str ("https://a.com").toList

def c5citB : Json := Json.obj [(keyUrl, Json.str ("https://b.com").toList)]

def c5answer : Str := ("Answer").toList

def c5expected : Str :=
  ("Answer\n\n**Sources:**\n1. https://a.com\n2. [https://b.com](https://b.com)\n").toList

def c6cat : Json :=
  Json.obj [(keyImageUrl, Json.str ("http://x/i.png").toList), (keyTitle, Json.str ("Cat").toList)]

def c6nourl : Json := Json.obj [(keyTitle, Json.str ("NoURL").toList)]

def c6expected : Str := ("\n\n**Related Images:**\n1. [Cat](http://x/i.png)\n").toList

def c9line : Str :=
  ("data: \x7b\"id\":\"abc\",\"choices\":[\x7b\"finish_reason\":\"length\"\x7d],\"usage\":\x7b\"total_tokens\":7\x7d\x7d").toList

def c10line : Str := ("data:\x7b\"x\":1\x7d").toList

/-- The malformed payload carried by `c4bad`. -/
def c4badData : Str := ("\x7b\"choices\":nope\x7d").toList

/-- `p?.k` for a chunk `p` known to be the stored `lastChunk`. -/
def chunkField (p : Json) (k : Str) : Option Json := chain1 (some p) (fun j => j.prop k)

/-- `p?.choices?.[0]?.finish_reason` for a stored chunk `p`. -/
def chunkFinish (p : Json) : Option Json :=
  chain1 (chain1 (chain1 (some p) (fun j => j.prop keyChoices)) jsIndex0)
    (fun j => j.prop keyFinishReason)

/- ===================== Theorems ===================== -/

theorem splitNl_ne_nil : ∀ s : Str, splitNl s ≠ [] := by
  intro s
  induction s with
  | nil => simp [splitNl]
  | cons c cs ih =>
    simp only [splitNl]
    split
    · simp
    · cases h : splitNl cs with
      | nil => exact absurd h ih
      | cons l ls => simp

theorem lastD_cons_of_ne_nil (x : Str) (l : List Str) (h : l ≠ []) :
    lastD (x :: l) = lastD l := by
  cases l with
  | nil => exact absurd rfl h
  | cons y ys => rfl

theorem lastD_append_of_ne_nil (A : List Str) {B : List Str} (h : B ≠ []) :
    lastD (A ++ B) = lastD B := by
  induction A with
  | nil => rfl
  | cons a as ih =>
    have hne : as ++ B ≠ [] := by
      cases B with
      | nil => exact absurd rfl h
      | cons b bs => simp
    rw [List.cons_append, lastD_cons_of_ne_nil a (as ++ B) hne, ih]

theorem dropLast_append_of_ne_nil (A : List Str) {B : List Str} (h : B ≠ []) :
    (A ++ B).dropLast = A ++ B.dropLast := by
  induction A with
  | nil => rfl
  | cons a as ih =>
    have hne : as ++ B ≠ [] := by
      cases B with
      | nil => exact absurd rfl h
      | cons b bs => simp
    cases hc : as ++ B with
    | nil => exact absurd hc hne
    | cons y ys =>
      rw [List.cons_append, hc, List.dropLast_cons₂, ← hc, ih, List.cons_append]

/-- Splitting a concatenation on newlines: the fragments of `x` except
the last, then the fragments of the carry-over (`x`'s last fragment)
prepended to `y`.  This is the algebraic heart of re-chunking
invariance for the buffered decoder. -/
theorem splitNl_append : ∀ x y : Str,
    splitNl (x ++ y) = (splitNl x).dropLast ++ splitNl (lastD (splitNl x) ++ y) := by
  intro x
  induction x with
  | nil => intro y; simp [splitNl, lastD]
  | cons c cs ih =>
    intro y
    by_cases hc : c = '\n'
    · subst hc
      cases hsc : splitNl cs with
      | nil => exact absurd hsc (splitNl_ne_nil cs)
      | cons l ls =>
        have h1 : splitNl (('\n' :: cs) ++ y) = [] :: splitNl (cs ++ y) := by
          simp [splitNl]
        have h2 : splitNl ('\n' :: cs) = [] :: splitNl cs := by
          simp [splitNl]
        rw [h1, h2, ih y, hsc]
        cases ls with
        | nil => simp [lastD]
        | cons l1 ls1 => simp [lastD, List.dropLast_cons₂]
    · cases hsc : splitNl cs with
      | nil => exact absurd hsc (splitNl_ne_nil cs)
      | cons l ls =>
        have h2 : splitNl (c :: cs) = (c :: l) :: ls := by
          simp only [splitNl, if_neg hc, hsc]
        cases hay : splitNl (cs ++ y) with
        | nil => exact absurd hay (splitNl_ne_nil (cs ++ y))
        | cons m ms =>
          have h1 : splitNl ((c :: cs) ++ y) = (c :: m) :: ms := by
            have hstep : (c :: cs) ++ y = c :: (cs ++ y) := rfl
            rw [hstep]
            simp only [splitNl, if_neg hc]
            rw [hay]
          rw [h1, h2]
          cases ls with
          | nil =>
            have hiy : splitNl (cs ++ y) = splitNl (l ++ y) := by
              rw [ih y, hsc]; simp [lastD]
            have h3 : splitNl ((c :: l) ++ y) = (c :: m) :: ms := by
              have hstep : (c :: l) ++ y = c :: (l ++ y) := rfl
              rw [hstep]
              simp only [splitNl, if_neg hc]
              rw [← hiy, hay]
            simp only [List.dropLast_single, lastD, List.nil_append]
            exact h3.symm
          | cons l1 ls1 =>
            have hiy := ih y
            rw [hsc] at hiy
            have heq : m :: ms
                = l :: (List.dropLast (l1 :: ls1) ++ splitNl (lastD (l1 :: ls1) ++ y)) := by
              rw [← hay, hiy]; simp [lastD, List.dropLast_cons₂]
            have hm : m = l := (List.cons.injEq _ _ _ _ |>.mp heq).1
            have hms : ms = List.dropLast (l1 :: ls1) ++ splitNl (lastD (l1 :: ls1) ++ y) :=
              (List.cons.injEq _ _ _ _ |>.mp heq).2
            subst hm
            subst hms
            simp [lastD, List.dropLast_cons₂]

/-- Feeding two chunks one after the other equals feeding their
concatenation: the carry-over buffer makes the buffered processor a
monoid action on chunks. -/
theorem feedChunkS_append (st : BufState) (a b : Str) :
    feedChunkS (feedChunkS st a) b = feedChunkS st (a ++ b) := by
  unfold feedChunkS
  simp only
  have hsp := splitNl_append (st.buffer ++ a) b
  rw [List.append_assoc st.buffer a b] at hsp
  have hne := splitNl_ne_nil (lastD (splitNl (st.buffer ++ a)) ++ b)
  rw [hsp, dropLast_append_of_ne_nil _ hne, lastD_append_of_ne_nil _ hne]
  unfold processLinesS
  rw [List.foldl_append]

theorem foldl_feedChunkS_cons (cs : List Str) : ∀ (st : BufState) (a : Str),
    (a :: cs).foldl feedChunkS st = feedChunkS st (a ++ joinList cs) := by
  induction cs with
  | nil => intro st a; simp [joinList]
  | cons c cs' ih =>
    intro st a
    have h1 : (a :: c :: cs').foldl feedChunkS st = (c :: cs').foldl feedChunkS (feedChunkS st a) := by
      simp
    rw [h1, ih (feedChunkS st a) c, feedChunkS_append, joinList, ← List.append_assoc]

/-- Claim C1, amended part: for the *buffered* stream processor of
`processStreamingResponse` (`src/server.ts` / `src/stdio.ts`), chunk
fragmentation does not affect the outcome — processing any list of
chunks equals processing their whole concatenation as one chunk, so any
two splits of the same byte sequence yield the same accumulated text
and the same captured citation/image arrays. -/
theorem c1_buffered_rechunk_invariant (chunks : List Str) :
    runChunksS chunks = runChunksS [joinList chunks] := by
  cases chunks with
  | nil =>
    show initBuf = feedChunkS initBuf (joinList [])
    rfl
  | cons a cs =>
    show (a :: cs).foldl feedChunkS initBuf = feedChunkS initBuf (joinList (a :: cs))
    rw [foldl_feedChunkS_cons cs initBuf a]
    rfl

/-- Claim C1, counterexample: the bufferless variant
(`handleStreamResponse`, `src/unnamed/part_000`) is *not* invariant
under re-chunking.  The well-formed SSE byte sequence `c1whole`
(one delta event carrying `"Hi"`) accumulates `"Hi"` when fed as one
chunk, but accumulates nothing when split at byte offset 10, because
the first fragment's half line `"data: {\x22ch"` fails JSON parsing
and the second fragment's half line has no `"data: "` prefix. -/
theorem c1_counterexample :
    c1a ++ c1b = c1whole ∧
    (runChunksH [c1whole]).accumulatedContent = ('H' :: ['i']) ∧
    (runChunksH [c1a, c1b]).accumulatedContent = [] ∧
    (runChunksH [c1whole]).accumulatedContent ≠ (runChunksH [c1a, c1b]).accumulatedContent := by
  refine ⟨List.take_append_drop 10 c1whole, by decide, by decide, by decide⟩

/-- Claim C2, counterexample: `[DONE]` does not stop processing.  In
the buffered processor a buffer holding a `[DONE]` line followed by a
delta event carrying `"X"` still accumulates `"X"`: the event after the
sentinel changed the accumulated text. -/
theorem c2_counterexample :
    (runChunksS [c2chunk]).proc.result = ['X'] ∧ ('X' :: ([] : Str)) ≠ ([] : Str) := by
  exact ⟨by decide, by decide⟩

/-- Claim C2, amended: a `[DONE]` data line is skipped without being
parsed and without mutating any accumulated state, but processing then
*continues* with the remaining lines (in both the buffered processor
and `handleStreamResponse`); it does not terminate the loop. -/
theorem c2_done_skipped :
    (∀ (st : ProcState) (l : Str), trimStr l = doneLine → processLineS st l = st) ∧
    (∀ (st : ProcState) (ls : List Str) (l : Str), trimStr l = doneLine →
        processLinesS st (l :: ls) = processLinesS st ls) ∧
    (∀ (st : HState) (l : Str), begWith dataPre l = true → l.drop 6 = doneWord →
        processLineH st l = st) ∧
    (∀ (st : HState) (ls : List Str) (l : Str), begWith dataPre l = true → l.drop 6 = doneWord →
        processLinesH st (l :: ls) = processLinesH st ls) := by
  have hS : ∀ (st : ProcState) (l : Str), trimStr l = doneLine → processLineS st l = st := by
    intro st l h
    unfold processLineS
    rw [h]
    simp
  have hH : ∀ (st : HState) (l : Str), begWith dataPre l = true → l.drop 6 = doneWord →
      processLineH st l = st := by
    intro st l h1 h2
    unfold processLineH
    rw [h1, h2]
    simp
  refine ⟨hS, ?_, hH, ?_⟩
  · intro st ls l h
    unfold processLinesS
    rw [List.foldl_cons, hS st l h]
  · intro st ls l h1 h2
    unfold processLinesH
    rw [List.foldl_cons, hH st l h1 h2]

/-- Witness for `c2_done_skipped` at the literal `"data: [DONE]"`
line. -/
theorem c2_done_skipped_witness :
    processLineS initProc doneLine = initProc ∧ processLineH initH doneLine = initH :=
  ⟨c2_done_skipped.1 initProc doneLine (by decide),
   c2_done_skipped.2.2.1 initH doneLine (by decide) (by decide)⟩

/-- Claim C3, counterexample: the three delta events `"Hel"`, `"lo, "`,
`" world!"` followed by `[DONE]` do *not* accumulate to
`"Hello, world!"` — the literal concatenation has two spaces.  Both
variants disagree with the claimed string. -/
theorem c3_counterexample :
    (runChunksS [c3chunk]).proc.result ≠ c3claimed ∧
    (runChunksH [c3chunk]).accumulatedContent ≠ c3claimed := by
  exact ⟨by decide, by decide⟩

/-- Claim C3, amended: the accumulated answer text is the exact
character-for-character concatenation `"Hello,  world!"` (with the two
adjacent spaces contributed by `"lo, "` and `" world!"`), in both the
buffered processor and `handleStreamResponse`. -/
theorem c3_exact_concatenation :
    (runChunksS [c3chunk]).proc.result = c3expected ∧
    (runChunksH [c3chunk]).accumulatedContent = c3expected := by
  exact ⟨by decide, by decide⟩

/-- Claim C8, counterexample: in the `src/unnamed/part_000` variant a
missing API key is *not* surfaced as a tool error result — the
module-load check calls `process.exit(1)`, so the process exits. -/
theorem c8_counterexample : part000Startup none = StartupOutcome.exitsWith 1 := rfl

/-- Claim C8, amended: in `server.ts` and `stdio.ts` a falsy resolved
API key makes the tool handler throw an explanatory (non-empty) error
message instead of exiting; in the `part_000` variant a falsy
environment key at module load exits the process with code 1. -/
theorem c8_key_handling :
    (∀ envKey currentApiKey, optTruthyS (serverResolvedKey envKey currentApiKey) = false →
        serverKeyCheck envKey currentApiKey = .threw serverKeyMsg) ∧
    (∀ envKey, optTruthyS envKey = false → stdioKeyCheck envKey = .threw stdioKeyMsg) ∧
    (∀ envKey, optTruthyS envKey = false → part000Startup envKey = .exitsWith 1) ∧
    serverKeyMsg ≠ [] ∧ stdioKeyMsg ≠ [] := by
  refine ⟨?_, ?_, ?_, by decide, by decide⟩
  · intro envKey currentApiKey h
    simp [serverKeyCheck, h]
  · intro envKey h
    unfold stdioKeyCheck
    rw [h]
    rfl
  · intro envKey h
    unfold part000Startup
    rw [h]
    rfl

/-- Witness for `c8_key_handling` with no key available anywhere. -/
theorem c8_key_handling_witness :
    serverKeyCheck none none = .threw serverKeyMsg ∧
    stdioKeyCheck none = .threw stdioKeyMsg ∧
    part000Startup none = .exitsWith 1 :=
  ⟨c8_key_handling.1 none none rfl, c8_key_handling.2.1 none rfl,
   c8_key_handling.2.2.1 none rfl⟩

theorem processLineS_char_none (st : ProcState) (l : Str) (hd : dataOfS l = none) :
    processLineS st l = st := by
  unfold processLineS
  unfold dataOfS at hd
  by_cases h1 : trimStr l = [] ∨ trimStr l = doneLine
  · simp [h1]
  · by_cases h2 : begWith dataPre (trimStr l) = true
    · simp [h1, h2] at hd
    · simp [h1, h2]

theorem processLineS_char_some (st : ProcState) (l d : Str) (hd : dataOfS l = some d) :
    processLineS st l =
      match parseJson d with
      | none => st
      | some parsed => applyPayloadS st parsed := by
  unfold processLineS
  unfold dataOfS at hd
  by_cases h1 : trimStr l = [] ∨ trimStr l = doneLine
  · simp [h1] at hd
  · by_cases h2 : begWith dataPre (trimStr l) = true
    · simp [h1, h2] at hd
      rw [← hd]
      simp [h1, h2]
    · simp [h1, h2] at hd

theorem contribS_none (l : Str) (hd : dataOfS l = none) : contribS l = [] := by
  simp [contribS, hd]

theorem contribS_some (l d : Str) (hd : dataOfS l = some d) :
    contribS l =
      match parseJson d with
      | none => []
      | some parsed => payloadDeltaStr parsed := by
  simp [contribS, hd]

theorem citContribS_none (l : Str) (hd : dataOfS l = none) : citContribS l = none := by
  simp [citContribS, hd]

theorem citContribS_some (l d : Str) (hd : dataOfS l = some d) :
    citContribS l =
      match parseJson d with
      | none => none
      | some parsed => payloadCit parsed := by
  simp [citContribS, hd]

theorem processLineH_char_none (st : HState) (l : Str) (hd : parsedOfH l = none) :
    processLineH st l = st := by
  unfold processLineH
  unfold parsedOfH dataOfH at hd
  by_cases h1 : begWith dataPre l = true
  · by_cases h2 : l.drop 6 = doneWord
    · simp [h1, h2]
    · simp [h1, h2] at hd
      simp [h1, h2, hd]
  · simp [h1]

theorem processLineH_char_some (st : HState) (l : Str) (p : Json)
    (hd : parsedOfH l = some p) : processLineH st l = applyPayloadH st p := by
  unfold processLineH
  unfold parsedOfH dataOfH at hd
  by_cases h1 : begWith dataPre l = true
  · by_cases h2 : l.drop 6 = doneWord
    · simp [h1, h2] at hd
    · simp only [if_pos h1, if_neg h2] at hd
      simp [h1, h2, hd]
  · simp [h1] at hd

theorem applyPayloadS_result (st : ProcState) (p : Json) :
    (applyPayloadS st p).result = st.result ++ payloadDeltaStr p := by
  cases p <;> simp only [applyPayloadS, payloadDeltaStr] <;>
    (repeat' split) <;> simp_all

theorem applyPayloadS_citations (st : ProcState) (p : Json) :
    (applyPayloadS st p).citations = (payloadCit p).getD st.citations := by
  cases p <;> simp only [applyPayloadS, payloadCit] <;>
    (repeat' split) <;> simp_all

theorem applyPayloadH_content (st : HState) (p : Json) :
    (applyPayloadH st p).accumulatedContent = st.accumulatedContent ++ payloadDeltaStr p := by
  cases p <;> simp only [applyPayloadH, payloadDeltaStr] <;>
    (repeat' split) <;> simp_all

theorem applyPayloadH_lastChunk (st : HState) (p : Json) :
    (applyPayloadH st p).lastChunk = some p := by
  cases p <;> simp only [applyPayloadH] <;>
    (repeat' split) <;> simp_all

theorem applyPayloadH_search (st : HState) (p : Json) :
    (applyPayloadH st p).searchResults = (payloadSearch p).elim st.searchResults some := by
  cases p <;> simp only [applyPayloadH, payloadSearch] <;>
    (repeat' split) <;> simp_all

theorem processLineS_result (st : ProcState) (l : Str) :
    (processLineS st l).result = st.result ++ contribS l := by
  cases hd : dataOfS l with
  | none => rw [processLineS_char_none st l hd, contribS_none l hd]; simp
  | some d =>
    rw [processLineS_char_some st l d hd, contribS_some l d hd]
    cases hp : parseJson d with
    | none => simp
    | some parsed => simpa using applyPayloadS_result st parsed

theorem processLineS_citations (st : ProcState) (l : Str) :
    (processLineS st l).citations = (citContribS l).getD st.citations := by
  cases hd : dataOfS l with
  | none => rw [processLineS_char_none st l hd, citContribS_none l hd]; rfl
  | some d =>
    rw [processLineS_char_some st l d hd, citContribS_some l d hd]
    cases hp : parseJson d with
    | none => simp
    | some parsed => simpa using applyPayloadS_citations st parsed

theorem processLineS_skip (st : ProcState) (l d : Str) (hd : dataOfS l = some d)
    (hp : parseJson d = none) : processLineS st l = st := by
  rw [processLineS_char_some st l d hd, hp]

theorem processLineH_content (st : HState) (l : Str) :
    (processLineH st l).accumulatedContent = st.accumulatedContent ++ contribH l := by
  cases hd : parsedOfH l with
  | none =>
    rw [processLineH_char_none st l hd]
    simp [contribH, hd]
  | some parsed =>
    rw [processLineH_char_some st l parsed hd]
    simp [contribH, hd, applyPayloadH_content]

theorem processLineH_lastChunk (st : HState) (l : Str) :
    (processLineH st l).lastChunk = (parsedOfH l).elim st.lastChunk some := by
  cases hd : parsedOfH l with
  | none => rw [processLineH_char_none st l hd]; rfl
  | some parsed =>
    rw [processLineH_char_some st l parsed hd]
    simp [applyPayloadH_lastChunk]

theorem processLineH_search (st : HState) (l : Str) :
    (processLineH st l).searchResults = (srContribH l).elim st.searchResults some := by
  cases hd : parsedOfH l with
  | none =>
    rw [processLineH_char_none st l hd]
    simp [srContribH, hd]
  | some parsed =>
    rw [processLineH_char_some st l parsed hd]
    simp [srContribH, hd, applyPayloadH_search]

theorem processLineH_skip (st : HState) (l d : Str) (hd : dataOfH l = some d)
    (hp : parseJson d = none) : processLineH st l = st := by
  have hpf : parsedOfH l = none := by simp [parsedOfH, hd, hp]
  exact processLineH_char_none st l hpf

theorem processLinesS_result (st : ProcState) (ls : List Str) :
    (processLinesS st ls).result = st.result ++ joinList (ls.map contribS) := by
  induction ls generalizing st with
  | nil => simp [processLinesS, joinList]
  | cons l ls' ih =>
    unfold processLinesS at *
    rw [List.foldl_cons, ih (processLineS st l), processLineS_result, List.map_cons]
    show st.result ++ contribS l ++ joinList (ls'.map contribS)
      = st.result ++ (contribS l ++ joinList (ls'.map contribS))
    rw [List.append_assoc]

theorem processLinesH_content (st : HState) (ls : List Str) :
    (processLinesH st ls).accumulatedContent
      = st.accumulatedContent ++ joinList (ls.map contribH) := by
  induction ls generalizing st with
  | nil => simp [processLinesH, joinList]
  | cons l ls' ih =>
    unfold processLinesH at *
    rw [List.foldl_cons, ih (processLineH st l), processLineH_content, List.map_cons]
    show st.accumulatedContent ++ contribH l ++ joinList (ls'.map contribH)
      = st.accumulatedContent ++ (contribH l ++ joinList (ls'.map contribH))
    rw [List.append_assoc]

theorem infix_append_left {x p : Str} (h : List.IsInfix x p) (q : Str) :
    List.IsInfix x (q ++ p) := by
  rcases h with ⟨s, t, hst⟩
  exact ⟨q ++ s, t, by rw [← hst]; simp⟩

theorem infix_of_mem_joinList (x : Str) (xs : List Str) (h : x ∈ xs) :
    List.IsInfix x (joinList xs) := by
  induction xs with
  | nil => cases h
  | cons a as ih =>
    rcases List.mem_cons.mp h with h | h
    · subst h
      exact ⟨[], joinList as, by simp [joinList]⟩
    · exact infix_append_left (ih h) a

/-- Claim C4 (confirmed): in both stream processors a line whose
recognised data payload fails `JSON.parse` is skipped and processing
continues — the whole run equals the run with the malformed line
removed, and the delta contribution of every other line still appears
(as a contiguous substring) in the final accumulated text. -/
theorem c4_malformed_skipped :
    (∀ (st : ProcState) (pre post : List Str) (bad d : Str),
        dataOfS bad = some d → parseJson d = none →
        processLinesS st (pre ++ bad :: post) = processLinesS st (pre ++ post) ∧
        ∀ l ∈ pre ++ post,
          List.IsInfix (contribS l) ((processLinesS st (pre ++ post)).result)) ∧
    (∀ (st : HState) (pre post : List Str) (bad d : Str),
        dataOfH bad = some d → parseJson d = none →
        processLinesH st (pre ++ bad :: post) = processLinesH st (pre ++ post) ∧
        ∀ l ∈ pre ++ post,
          List.IsInfix (contribH l) ((processLinesH st (pre ++ post)).accumulatedContent)) := by
  constructor
  · intro st pre post bad d hd hp
    constructor
    · unfold processLinesS
      rw [List.foldl_append, List.foldl_append, List.foldl_cons,
        processLineS_skip _ bad d hd hp]
    · intro l hl
      rw [processLinesS_result]
      exact infix_append_left
        (infix_of_mem_joinList _ _ (List.mem_map_of_mem contribS hl)) _
  · intro st pre post bad d hd hp
    constructor
    · unfold processLinesH
      rw [List.foldl_append, List.foldl_append, List.foldl_cons,
        processLineH_skip _ bad d hd hp]
    · intro l hl
      rw [processLinesH_content]
      exact infix_append_left
        (infix_of_mem_joinList _ _ (List.mem_map_of_mem contribH hl)) _

/-- Witness for `c4_malformed_skipped`: one malformed payload between
two well-formed delta events. -/
theorem c4_malformed_skipped_witness :
    processLinesS initProc ([c4good1] ++ c4bad :: [c4good2])
        = processLinesS initProc ([c4good1] ++ [c4good2]) ∧
    List.IsInfix (contribS c4good2)
      ((processLinesS initProc ([c4good1] ++ [c4good2])).result) := by
  have h := c4_malformed_skipped.1 initProc [c4good1] [c4good2] c4bad c4badData
    (by decide) rfl
  exact ⟨h.1, h.2 c4good2 (by simp)⟩

/-- Claim C7 (confirmed): a payload carrying a citations
(resp. `search_results`) array replaces the stored value wholesale —
after processing any line list, the stored array equals the one carried
by the last line that supplied one, or the prior value when none did. -/
theorem c7_last_write_wins :
    (∀ (st : ProcState) (ls : List Str),
        (processLinesS st ls).citations = (lastSome (ls.map citContribS)).getD st.citations) ∧
    (∀ (st : HState) (ls : List Str),
        (processLinesH st ls).searchResults =
          (lastSome (ls.map srContribH)).elim st.searchResults some) := by
  constructor
  · intro st ls
    induction ls generalizing st with
    | nil => rfl
    | cons l ls' ih =>
      unfold processLinesS at *
      rw [List.foldl_cons, ih (processLineS st l), List.map_cons]
      cases h : lastSome (ls'.map citContribS) with
      | some v => simp [lastSome, h]
      | none => simp [lastSome, h, processLineS_citations]
  · intro st ls
    induction ls generalizing st with
    | nil => rfl
    | cons l ls' ih =>
      unfold processLinesH at *
      rw [List.foldl_cons, ih (processLineH st l), List.map_cons]
      cases h : lastSome (ls'.map srContribH) with
      | some v => simp [lastSome, h]
      | none => simp [lastSome, h, processLineH_search]

theorem processLinesH_lastChunk_list (st : HState) (ls : List Str) :
    (processLinesH st ls).lastChunk = (lastSome (ls.map parsedOfH)).elim st.lastChunk some := by
  induction ls generalizing st with
  | nil => rfl
  | cons l ls' ih =>
    unfold processLinesH at *
    rw [List.foldl_cons, ih (processLineH st l), List.map_cons]
    cases h : lastSome (ls'.map parsedOfH) with
    | some v => simp [lastSome, h]
    | none => simp [lastSome, h, processLineH_lastChunk]

theorem jsOrD_of_not_truthy (o : Option Json) (d : Json) (h : optTruthyJ o = false) :
    jsOrD o d = d := by
  cases o with
  | none => rfl
  | some v =>
    simp only [optTruthyJ] at h
    simp [jsOrD, h]

theorem jsOrD_of_truthy {o : Option Json} (d : Json) {v : Json} (ho : o = some v)
    (h : v.truthy = true) : jsOrD o d = v := by
  subst ho
  simp [jsOrD, h]

/-- Claim C9 (confirmed): the response synthesized by
`handleStreamResponse` uses the most recent successfully parsed chunk's
truthy `id`, `finish_reason` and `usage` values, and falls back to
`"unknown"`, `"stop"` and all-zero usage counts when no chunk was
parsed or the stored chunk does not supply a truthy value. -/
theorem c9_synth_fields (ls : List Str) (now : Int) :
    (lastSome (ls.map parsedOfH) = none →
        (synthesize (runLinesH ls) now).rid = .str wordUnknown ∧
        (synthesize (runLinesH ls) now).rfinish = .str wordStop ∧
        (synthesize (runLinesH ls) now).rusage = zeroUsage) ∧
    (∀ p, lastSome (ls.map parsedOfH) = some p →
        ((optTruthyJ (chunkField p keyId) = false →
             (synthesize (runLinesH ls) now).rid = .str wordUnknown) ∧
         (∀ v, chunkField p keyId = some v → v.truthy = true →
             (synthesize (runLinesH ls) now).rid = v)) ∧
        ((optTruthyJ (chunkFinish p) = false →
             (synthesize (runLinesH ls) now).rfinish = .str wordStop) ∧
         (∀ v, chunkFinish p = some v → v.truthy = true →
             (synthesize (runLinesH ls) now).rfinish = v)) ∧
        ((optTruthyJ (chunkField p keyUsage) = false →
             (synthesize (runLinesH ls) now).rusage = zeroUsage) ∧
         (∀ v, chunkField p keyUsage = some v → v.truthy = true →
             (synthesize (runLinesH ls) now).rusage = v))) := by
  have hlc : (runLinesH ls).lastChunk = (lastSome (ls.map parsedOfH)).elim initH.lastChunk some := by
    unfold runLinesH
    exact processLinesH_lastChunk_list initH ls
  constructor
  · intro h
    rw [h] at hlc
    refine ⟨?_, ?_, ?_⟩ <;> simp [synthesize, hlc, chain1, initH, jsOrD]
  · intro p hp
    rw [hp] at hlc
    refine ⟨⟨?_, ?_⟩, ⟨?_, ?_⟩, ⟨?_, ?_⟩⟩
    · intro ht
      show jsOrD (chain1 (runLinesH ls).lastChunk (fun j => j.prop keyId)) (.str wordUnknown)
        = .str wordUnknown
      rw [hlc]
      exact jsOrD_of_not_truthy _ _ ht
    · intro v hv htv
      show jsOrD (chain1 (runLinesH ls).lastChunk (fun j => j.prop keyId)) (.str wordUnknown) = v
      rw [hlc]
      exact jsOrD_of_truthy _ hv htv
    · intro ht
      show jsOrD
          (chain1 (chain1 (chain1 (runLinesH ls).lastChunk (fun j => j.prop keyChoices)) jsIndex0)
            (fun j => j.prop keyFinishReason))
          (.str wordStop) = .str wordStop
      rw [hlc]
      exact jsOrD_of_not_truthy _ _ ht
    · intro v hv htv
      show jsOrD
          (chain1 (chain1 (chain1 (runLinesH ls).lastChunk (fun j => j.prop keyChoices)) jsIndex0)
            (fun j => j.prop keyFinishReason))
          (.str wordStop) = v
      rw [hlc]
      exact jsOrD_of_truthy _ hv htv
    · intro ht
      show jsOrD (chain1 (runLinesH ls).lastChunk (fun j => j.prop keyUsage)) zeroUsage = zeroUsage
      rw [hlc]
      exact jsOrD_of_not_truthy _ _ ht
    · intro v hv htv
      show jsOrD (chain1 (runLinesH ls).lastChunk (fun j => j.prop keyUsage)) zeroUsage = v
      rw [hlc]
      exact jsOrD_of_truthy _ hv htv

/-- Witness for `c9_synth_fields`: an empty stream synthesizes all
three defaults. -/
theorem c9_synth_fields_witness :
    (synthesize (runLinesH []) 5).rid = .str wordUnknown ∧
    (synthesize (runLinesH []) 5).rfinish = .str wordStop ∧
    (synthesize (runLinesH []) 5).rusage = zeroUsage :=
  (c9_synth_fields [] 5).1 rfl

theorem enumFrom_foldl_append (f : Nat → Json → Str) (xs : List Json) :
    ∀ (i : Nat) (init : Str),
      (enumFrom i xs).foldl (fun acc p => acc ++ f p.1 p.2) init
        = init ++ joinList ((enumFrom i xs).map (fun p => f p.1 p.2)) := by
  induction xs with
  | nil => intro i init; simp [enumFrom, joinList]
  | cons a as ih =>
    intro i init
    simp only [enumFrom, List.foldl_cons, List.map_cons, joinList]
    rw [ih (i + 1) (init ++ f i a), List.append_assoc]

theorem foldRender_eq (f : Nat → Json → Str) (init : Str) (xs : List Json) :
    foldRender f init xs = init ++ joinList ((enumFrom 0 xs).map (fun p => f p.1 p.2)) := by
  unfold foldRender
  exact enumFrom_foldl_append f xs 0 init

theorem enumFrom_snd_mem {α : Type} (xs : List α) :
    ∀ (i : Nat) (p : Nat × α), p ∈ enumFrom i xs → p.2 ∈ xs := by
  induction xs with
  | nil => intro i p h; cases h
  | cons a as ih =>
    intro i p h
    rcases List.mem_cons.mp h with h | h
    · subst h; simp
    · exact List.mem_cons_of_mem _ (ih (i + 1) p h)

theorem mapCongr {α β : Type} : ∀ (l : List α) (f g : α → β),
    (∀ x ∈ l, f x = g x) → l.map f = l.map g := by
  intro l f g h
  induction l with
  | nil => rfl
  | cons a as ih =>
    rw [List.map_cons, List.map_cons, h a (by simp),
      ih (fun x hx => h x (List.mem_cons_of_mem _ hx))]

theorem firstTruthy_cons (c : Json) (k : Str) (ks : List Str) (d : Json) :
    (firstTruthyProp c (k :: ks)).getD d = jsOrD (c.prop k) ((firstTruthyProp c ks).getD d) := by
  cases h : c.prop k with
  | none => simp [firstTruthyProp, jsOrD, h]
  | some v =>
    by_cases ht : v.truthy = true
    · simp [firstTruthyProp, jsOrD, h, ht]
    · simp only [Bool.not_eq_true] at ht
      simp [firstTruthyProp, jsOrD, h, ht]

/-- The per-citation line of the source formatter coincides with the
spec's description on data-model-shaped citations (bare strings and
objects). -/
theorem renderCitation_spec (c : Json) (hc : citShape c = true) (i : Nat) :
    renderCitation i c = specCitationLine i c := by
  cases c with
  | str s => rfl
  | obj fs =>
    show renderCitation i (Json.obj fs) = specCitationLine i (Json.obj fs)
    simp only [renderCitation, specCitationLine, firstTruthy_cons]
    have hnil : ∀ d : Json, (firstTruthyProp (Json.obj fs) []).getD d = d := fun d => rfl
    simp only [hnil]
  | null => simp [citShape] at hc
  | bool b => simp [citShape] at hc
  | num m e => simp [citShape] at hc
  | arr xs => simp [citShape] at hc

/-- Claim C5 (confirmed): for non-empty, data-model-shaped citation
lists the formatter appends a blank line, the `**Sources:**` heading
and one 1-indexed line per citation rendered exactly as the spec
describes; the spec's concrete example is reproduced verbatim. -/
theorem c5_citation_formatting :
    (∀ (res : Str) (cits : List Json), cits ≠ [] → (∀ c ∈ cits, citShape c = true) →
        formatResponse res cits [] =
          res ++ srcHeader
            ++ joinList ((enumFrom 0 cits).map (fun p => specCitationLine p.1 p.2))) ∧
    formatResponse c5answer [c5citA, c5citB] [] = c5expected := by
  constructor
  · intro res cits hne hshape
    have hlen : cits.length > 0 := List.length_pos.mpr hne
    have hmap : (enumFrom 0 cits).map (fun p => renderCitation p.1 p.2)
        = (enumFrom 0 cits).map (fun p => specCitationLine p.1 p.2) :=
      mapCongr _ _ _ (fun p hp =>
        renderCitation_spec p.2 (hshape p.2 (enumFrom_snd_mem cits 0 p hp)) p.1)
    simp only [formatResponse, hlen, if_pos, List.length_nil, Nat.lt_irrefl, gt_iff_lt,
      if_false, reduceIte]
    rw [foldRender_eq, hmap, List.append_assoc]
  · decide

/-- Witness for `c5_citation_formatting` at the spec's example
citations. -/
theorem c5_citation_formatting_witness :
    formatResponse c5answer [c5citA, c5citB] []
      = c5answer ++ srcHeader
        ++ joinList ((enumFrom 0 [c5citA, c5citB]).map (fun p => specCitationLine p.1 p.2)) :=
  c5_citation_formatting.1 c5answer [c5citA, c5citB] (by simp) (by decide)

/-- Claim C6 (confirmed): an image object with no resolvable URL field
contributes no output line; image numbering is positional (each
position `i` contributes exactly `renderImage i image`, whatever the
other positions contribute); and the spec's concrete example emits
exactly the single line `1. [Cat](http://x/i.png)`. -/
theorem c6_image_formatting :
    (∀ (i : Nat) (fs : List (Str × Json)), resolveImgUrl (Json.obj fs) = none →
        renderImage i (Json.obj fs) = []) ∧
    (∀ (res : Str) (imgs : List Json), imgs ≠ [] →
        formatResponse res [] imgs =
          res ++ imgHeader
            ++ joinList ((enumFrom 0 imgs).map (fun p => renderImage p.1 p.2))) ∧
    formatResponse [] [] [c6cat, c6nourl] = c6expected := by
  refine ⟨?_, ?_, by decide⟩
  · intro i fs h
    simp [renderImage, h]
  · intro res imgs hne
    have hlen : imgs.length > 0 := List.length_pos.mpr hne
    simp only [formatResponse, hlen, List.length_nil, Nat.lt_irrefl, gt_iff_lt, if_false,
      reduceIte, if_pos]
    rw [foldRender_eq, List.append_assoc]

/-- Witness for `c6_image_formatting`: the URL-less titled image of the
spec's example contributes no line, and the example list formats
positionally. -/
theorem c6_image_formatting_witness :
    renderImage 1 c6nourl = [] ∧
    formatResponse [] [] [c6cat, c6nourl]
      = [] ++ imgHeader
        ++ joinList ((enumFrom 0 [c6cat, c6nourl]).map (fun p => renderImage p.1 p.2)) :=
  ⟨c6_image_formatting.1 1 [(keyTitle, Json.str (("NoURL").toList))] rfl,
   c6_image_formatting.2.1 [] [c6cat, c6nourl] (by simp)⟩

theorem dropWhile_append_pos (p : Char → Bool) :
    ∀ (a b : List Char), List.dropWhile p a ≠ [] →
      List.dropWhile p (a ++ b) = List.dropWhile p a ++ b := by
  intro a
  induction a with
  | nil => intro b h; exact absurd rfl h
  | cons c cs ih =>
    intro b h
    cases hpc : p c with
    | true =>
      rw [List.dropWhile_cons_of_pos hpc] at h
      rw [List.cons_append, List.dropWhile_cons_of_pos hpc, List.dropWhile_cons_of_pos hpc]
      exact ih b h
    | false =>
      have hpc' : ¬ p c = true := by simp [hpc]
      rw [List.cons_append, List.dropWhile_cons_of_neg hpc', List.dropWhile_cons_of_neg hpc',
        List.cons_append]

theorem dropWhile_append_nil (p : Char → Bool) :
    ∀ (a b : List Char), List.dropWhile p a = [] →
      List.dropWhile p (a ++ b) = List.dropWhile p b := by
  intro a
  induction a with
  | nil => intro b _; rfl
  | cons c cs ih =>
    intro b h
    cases hpc : p c with
    | true =>
      rw [List.dropWhile_cons_of_pos hpc] at h
      rw [List.cons_append, List.dropWhile_cons_of_pos hpc]
      exact ih b h
    | false =>
      have hpc' : ¬ p c = true := by simp [hpc]
      rw [List.dropWhile_cons_of_neg hpc'] at h
      cases h

theorem dropWhile_nil_iff (p : Char → Bool) :
    ∀ l : List Char, List.dropWhile p l = [] ↔ ∀ c ∈ l, p c = true := by
  intro l
  induction l with
  | nil => simp
  | cons c cs ih =>
    cases hpc : p c with
    | true =>
      rw [List.dropWhile_cons_of_pos hpc]
      simp [ih, hpc]
    | false =>
      have hpc' : ¬ p c = true := by simp [hpc]
      rw [List.dropWhile_cons_of_neg hpc']
      simp [hpc]

theorem begWith_iff : ∀ (p s : Str), begWith p s = true ↔ ∃ r, s = p ++ r := by
  intro p
  induction p with
  | nil => intro s; simp [begWith]
  | cons x xs ih =>
    intro s
    cases s with
    | nil =>
      simp only [begWith]
      constructor
      · intro h; cases h
      · rintro ⟨r, hr⟩; cases hr
    | cons c cs =>
      simp only [begWith, Bool.and_eq_true, decide_eq_true_eq]
      constructor
      · rintro ⟨hx, hb⟩
        obtain ⟨r, hr⟩ := (ih cs).mp hb
        exact ⟨r, by rw [hx, hr]; rfl⟩
      · rintro ⟨r, hr⟩
        rw [List.cons_append] at hr
        injection hr with h1 h2
        exact ⟨h1.symm, (ih cs).mpr ⟨r, h2⟩⟩

theorem begWith_self_append (p r : Str) : begWith p (p ++ r) = true :=
  (begWith_iff p (p ++ r)).mpr ⟨r, rfl⟩

theorem parseJson_skipWs_nil (s : Str) (h : skipWs s = []) : parseJson s = none := by
  have hv : parseVal (s.length + 1) s = none := by
    simp only [parseVal, h]
  simp [parseJson, hv]

theorem trimR_append_of_all_ws (a b : Str) (h : ∀ c ∈ b, isWsChar c = true) :
    trimR (a ++ b) = trimR a := by
  unfold trimR
  rw [List.reverse_append]
  have hb : List.dropWhile isWsChar b.reverse = [] :=
    (dropWhile_nil_iff isWsChar b.reverse).mpr (fun c hc => h c (List.mem_reverse.mp hc))
  rw [dropWhile_append_nil isWsChar b.reverse a.reverse hb]

theorem trimR_append_of_not_all_ws (a b : Str) (h : List.dropWhile isWsChar b.reverse ≠ []) :
    trimR (a ++ b) = a ++ trimR b := by
  unfold trimR
  rw [List.reverse_append, dropWhile_append_pos isWsChar b.reverse a.reverse h,
    List.reverse_append, List.reverse_reverse]

/-- Claim C10 (confirmed): a line whose trimmed form starts with
`"data:"` but not with the 6-character prefix `"data: "` is ignored by
both stream processors — nothing is emitted and the state is unchanged,
even though SSE permits omitting the space after the colon. -/
theorem c10_strict_data_prefix_required (st : ProcState) (sth : HState) (l : Str)
    (h1 : begWith dataColon (trimStr l) = true)
    (h2 : begWith dataPre (trimStr l) = false) :
    processLineS st l = st ∧ processLineH sth l = sth := by
  constructor
  · unfold processLineS
    by_cases hskip : trimStr l = [] ∨ trimStr l = doneLine
    · simp [hskip]
    · simp [hskip, h2]
  · cases hb : begWith dataPre l with
    | false => simp [processLineH, hb]
    | true =>
      obtain ⟨r, hr⟩ := (begWith_iff dataPre l).mp hb
      subst hr
      have htl : trimL (dataPre ++ r) = dataPre ++ r := by
        have hshape : dataPre ++ r = 'd' :: (('a' :: 't' :: 'a' :: ':' :: ' ' :: []) ++ r) := rfl
        rw [hshape]
        unfold trimL
        rw [List.dropWhile_cons_of_neg (by decide)]
      have hts : trimStr (dataPre ++ r) = trimR (dataPre ++ r) := by
        unfold trimStr
        rw [htl]
      by_cases hall : List.dropWhile isWsChar r.reverse = []
      · -- the payload after the prefix is pure whitespace: parse fails
        have hallr : ∀ c ∈ r, isWsChar c = true := fun c hc =>
          (dropWhile_nil_iff isWsChar r.reverse).mp hall c (List.mem_reverse.mpr hc)
        have hdrop : (dataPre ++ r).drop 6 = r := rfl
        have hnotdone : ¬ r = doneWord := by
          intro hrd
          subst hrd
          exact absurd (hallr '[' (by decide)) (by decide)
        have hws : skipWs r = [] := (dropWhile_nil_iff isWsChar r).mpr hallr
        have hparse : parseJson r = none := parseJson_skipWs_nil r hws
        simp [processLineH, hb, hdrop, hnotdone, hparse]
      · -- the payload has visible content: the trimmed line would then
        -- keep the full 6-character prefix, contradicting `h2`
        exfalso
        have : trimStr (dataPre ++ r) = dataPre ++ trimR r := by
          rw [hts, trimR_append_of_not_all_ws dataPre r hall]
        rw [this, begWith_self_append] at h2
        cases h2

/-- Witness for `c10_strict_data_prefix_required` at the line
`"data:{\x22x\x22:1}"` (valid JSON after a space-less `data:`
prefix). -/
theorem c10_strict_data_prefix_required_witness :
    begWith dataColon (trimStr c10line) = true ∧
    begWith dataPre (trimStr c10line) = false ∧
    processLineS initProc c10line = initProc ∧
    processLineH initH c10line = initH := by
  refine ⟨by decide, by decide, ?_, ?_⟩
  · exact (c10_strict_data_prefix_required initProc initH c10line (by decide) (by decide)).1
  · exact (c10_strict_data_prefix_required initProc initH c10line (by decide) (by decide)).2
